import Mathlib

/-!
# Single-table seeding pipeline (`dynamo/singleTableDesign`)

A shallow embedding of the Go sources `main.go`, `customer.go`, `employee.go` and
`order.go`, followed by theorems about the embedded functions.

Conventions of the embedding.

* Go `string` is Lean `String`.  Go indexes strings by byte; the only slicing
  the program does cuts the ASCII suffix `"ID"`, and on valid UTF-8 text a
  two-byte ASCII suffix is exactly a two-character suffix, so the model slices
  by character.
* Go `map[string]string` is `GoMap`: a list of entries with pairwise distinct
  keys.  Reading a key is `GoMap.get?`, the assignment `m[k] = v` is `GoMap.set`.
* A Go map value is a reference to a map object.  Code that only reads maps
  (`getItemsToInsert`) or only builds fresh ones (the fetch functions) works on
  the objects' contents.  `cleanUpData` mutates the objects, so it works on a
  `Heap`, the contents of the map object at every address, and its slice is
  a list of addresses, which may hold one address more than once.
* A Go `(value, error)` pair with the `return nil, err` discipline is `Except`.
* `fmt.Errorf(...)` is the formatted message; `%s` splices the string, `%d`
  prints the decimal numeral (`toString` on `Nat`).
* The DynamoDB client is a deterministic state machine supplied as a
  parameter; every call made to it is recorded, together with the log lines
  of `insertIntoDynamo`, in an event list.
-/

namespace SingleTableDesign

/-! ## Go maps -/

/-- Value stored under key `k` in a list of entries (the first one found). -/
def entriesGet : List (String × String) → String → Option String
  | [], _ => none
  | (k', v') :: rest, k => if k' = k then some v' else entriesGet rest k

/-- Entries after `m[k] = v`: the entry of `k` is overwritten where it stands,
a new entry is appended when `k` has none. -/
def entriesSet : List (String × String) → String → String → List (String × String)
  | [], k, v => [(k, v)]
  | (k', v') :: rest, k, v =>
    if k' = k then (k', v) :: rest else (k', v') :: entriesSet rest k v

/-- Go `map[string]string`. -/
structure GoMap where
  entries : List (String × String)
  nodup : (entries.map Prod.fst).Nodup

namespace GoMap

/-- The empty map, `make(map[string]string)`. -/
def empty : GoMap := ⟨[], List.nodup_nil⟩

/-- The two-valued read `v, ok := m[k]`: `none` when `ok` is false. -/
def get? (m : GoMap) (k : String) : Option String := entriesGet m.entries k

/-- The assignment `m[k] = v`. -/
def set (m : GoMap) (k v : String) : GoMap :=
  ⟨entriesSet m.entries k v, by
    have keys : ∀ l : List (String × String), (entriesSet l k v).map Prod.fst =
        if k ∈ l.map Prod.fst then l.map Prod.fst else l.map Prod.fst ++ [k] := by
      intro l
      induction l with
      | nil => simp [entriesSet]
      | cons hd tl ih =>
        obtain ⟨k', v'⟩ := hd
        by_cases h : k' = k
        · simp [entriesSet, h]
        · have h' : ¬ k = k' := fun e => h e.symm
          by_cases hm : k ∈ tl.map Prod.fst
          · simp [entriesSet, h, ih, hm]
          · simp only [entriesSet, h, if_false, List.map_cons, ih, hm, List.mem_cons, h',
              or_self, List.cons_append]
    rw [keys]
    split
    · exact m.nodup
    · rename_i hk
      exact List.Nodup.append m.nodup (List.nodup_singleton k) (by simpa using hk)⟩

/-- The map built by assigning the given pairs from left to right. -/
def ofList (l : List (String × String)) : GoMap :=
  l.foldl (fun m kv => m.set kv.1 kv.2) empty

end GoMap

/-- Modelled from the spec: the type declaration of `DynamoInsertItem` is not
among the sources; the spec calls it an Attribute Mapping, a mapping from field
name (string) to field value (string), and the code builds it with `make`,
reads and assigns it by string key. -/
abbrev DynamoInsertItem := GoMap

/-! ## Go strings -/

/-- Go `s[:n]`. -/
def sliceTo (s : String) (n : Nat) : String := ⟨s.data.take n⟩

/-- Go `s[n:]`. -/
def sliceFrom (s : String) (n : Nat) : String := ⟨s.data.drop n⟩

/-- Go `strings.HasSuffix`:
`len(s) >= len(suffix) && s[len(s)-len(suffix):] == suffix`. -/
def HasSuffix (s suffix : String) : Bool :=
  decide (s.length ≥ suffix.length) && (sliceFrom s (s.length - suffix.length) == suffix)

/-! ## `cleanUpData` (main.go, lines 79-93) -/

/-- Body of the inner loop of `cleanUpData` for one entry produced by
`range item`; `acc` is the map as mutated so far. -/
def cleanUpEntry (acc : DynamoInsertItem) (entry : String × String) : DynamoInsertItem :=
  let (itemKey, itemValue) := entry
  if HasSuffix itemKey "ID" then
    acc.set itemKey (sliceTo itemKey (itemKey.length - 2) ++ "#" ++ itemValue)
  else acc

/-- Inner loop of `cleanUpData`: `for itemKey, itemValue := range item`.  The
loop only overwrites the entry it is visiting, so every entry is produced once
with its original value; the model visits them in stored order. -/
def cleanUpItem (item : DynamoInsertItem) : DynamoInsertItem :=
  item.entries.foldl cleanUpEntry item

/-- Address of a map object. -/
abbrev MapRef := Nat

/-- Contents of the map object at every address. -/
abbrev Heap := MapRef → DynamoInsertItem

/-- The heap after the map object at address `ref` has received the contents
`m`. -/
def Heap.store (heap : Heap) (ref : MapRef) (m : DynamoInsertItem) : Heap :=
  fun a => if a = ref then m else heap a

/-- Go `cleanUpData`: `for _, item := range data` runs the inner loop on the
map object each slice element refers to, in slice order, mutating that object
in place.  An object the slice refers to several times is visited, and
rewritten, once per occurrence. -/
def cleanUpData (heap : Heap) (data : List MapRef) : Heap :=
  data.foldl (fun h item => h.store item (cleanUpItem (h item))) heap

/-! ## `getItemsToInsert` and `buildAdjacencyList` (main.go, lines 251-324) -/

/-- The `*dynamodb.WriteRequest` built by `getItemsToInsert`: a `PutRequest`
whose `Item` holds exactly the string attributes `"pk"`, `"sk"` and `"data"`. -/
structure WriteRequest where
  pk : String
  sk : String
  data : String
  deriving DecidableEq

/-- Inner loop of `getItemsToInsert`, `for idx, gs1Sk := range gs1Sks`, from
position `idx` on, with `gs1String` the buffer written so far.  The loop
variable `idx` declared here shadows the item index of the outer loop, so the
number formatted into the error message is the position of the field. -/
def gs1Loop (insertItem : DynamoInsertItem) (gs1Sks : List String) :
    Nat → List String → String → Except String String
  | _, [], gs1String => .ok gs1String
  | idx, gs1Sk :: rest, gs1String =>
    match insertItem.get? gs1Sk with
    | none => .error ("missing gs1Sk key " ++ gs1Sk ++ " on item " ++ toString idx)
    | some v =>
      gs1Loop insertItem gs1Sks (idx + 1) rest
        (if idx > 0 ∧ (idx : Int) ≠ (gs1Sks.length : Int) - 1
          then (gs1String ++ v).push '#' else gs1String ++ v)

/-- Outer loop of `getItemsToInsert`, `for idx, insertItem := range insertItems`,
from item `idx` on, with `writeRequests` the slice appended to so far. -/
def itemsLoop (pk sk : String) (skMandatory : Bool) (gs1Sks : List String) :
    Nat → List DynamoInsertItem → List WriteRequest → Except String (List WriteRequest)
  | _, [], writeRequests => .ok writeRequests
  | idx, insertItem :: rest, writeRequests =>
    match insertItem.get? pk with
    | none => .error ("missing pk '" ++ pk ++ "' on item " ++ toString idx)
    | some pkValue =>
      match (if skMandatory then
              (match insertItem.get? sk with
               | none => Except.error ("missing sk '" ++ sk ++ "' on item " ++ toString idx)
               | some v => Except.ok v)
             else Except.ok sk) with
      | .error e => .error e
      | .ok skValue =>
        match gs1Loop insertItem gs1Sks 0 gs1Sks "" with
        | .error e => .error e
        | .ok gs1String =>
          itemsLoop pk sk skMandatory gs1Sks (idx + 1) rest
            (writeRequests ++ [{ pk := pkValue, sk := skValue, data := gs1String }])

/-- Go `getItemsToInsert`. -/
def getItemsToInsert (insertItems : List DynamoInsertItem) (pk sk : String)
    (skMandatory : Bool) (gs1Sks : List String) : Except String (List WriteRequest) :=
  itemsLoop pk sk skMandatory gs1Sks 0 insertItems []

/-- Go `buildAdjacencyList`. -/
def buildAdjacencyList (customers employees orders : List DynamoInsertItem) :
    Except String (List WriteRequest) :=
  match getItemsToInsert customers "customerID" "contactName" true
      ["country", "region", "city", "address"] with
  | .error e => .error ("problem during insertion items creation for customers: " ++ e)
  | .ok customersItems =>
    match getItemsToInsert employees "employeeID" "reportsTo" true ["hireDate"] with
    | .error e => .error ("problem during insertion items creation for employees: " ++ e)
    | .ok employeesItems =>
      match getItemsToInsert orders "orderID" "ORDER" false ["orderDate"] with
      | .error e => .error ("problem during insertion items creation for orders: " ++ e)
      | .ok ordersItems => .ok ((([] ++ customersItems) ++ employeesItems) ++ ordersItems)

/-- Lines 65-70 of `main`: the three calls of `cleanUpData`, one after the
other on the same map objects, and then `buildAdjacencyList` on the three
slices. -/
def mainAdjacencyList (heap : Heap) (customers employees orders : List MapRef) :
    Except String (List WriteRequest) :=
  let heap1 := cleanUpData heap customers
  let heap2 := cleanUpData heap1 employees
  let heap3 := cleanUpData heap2 orders
  buildAdjacencyList (customers.map heap3) (employees.map heap3) (orders.map heap3)

/-! ## `BatchInsert` (main.go, lines 96-128) -/

/-- What `BatchInsert` does that is visible from outside, in order of
occurrence: the log line `"batch insertion #%d"` and the call of
`client.BatchWriteItem` with the requests put under `singleTableName`. -/
inductive Event where
  | info (batchCount : Nat)
  | batchWriteItem (requests : List WriteRequest)
  deriving DecidableEq

/-- The closure `insertIntoDynamo`.  `client st reqs` is the store's answer to
`BatchWriteItem` in state `st`: the error, if any, and the next state. -/
def insertIntoDynamo {σ ε : Type} (client : σ → List WriteRequest → Option ε × σ)
    (st : σ) (batchCount : Nat) (writeRequests : List WriteRequest) :
    Option ε × σ × List Event :=
  if writeRequests.length = 0 then (none, st, [Event.info batchCount])
  else
    ((client st writeRequests).1, (client st writeRequests).2,
      [Event.info batchCount, Event.batchWriteItem writeRequests])

/-- The `for ; len(writeRequests) > 25 ; batchCount++` loop of `BatchInsert`
and the call that follows it.  Returns the error (`none` for `nil`), the final
store state and the events in order. -/
def batchLoop {σ ε : Type} (client : σ → List WriteRequest → Option ε × σ)
    (st : σ) (batchCount : Nat) (writeRequests : List WriteRequest) :
    Option ε × σ × List Event :=
  if _h : writeRequests.length > 25 then
    match insertIntoDynamo client st batchCount (writeRequests.take 25) with
    | (some err, st', evs) => (some err, st', evs)
    | (none, st', evs) =>
      let r := batchLoop client st' (batchCount + 1) (writeRequests.drop 25)
      (r.1, r.2.1, evs ++ r.2.2)
  else
    insertIntoDynamo client st batchCount writeRequests
termination_by writeRequests.length
decreasing_by simp only [List.length_drop]; omega

/-- Go `BatchInsert`. -/
def BatchInsert {σ ε : Type} (client : σ → List WriteRequest → Option ε × σ)
    (st : σ) (writeRequests : List WriteRequest) : Option ε × σ × List Event :=
  batchLoop client st 1 writeRequests

/-- The chunks handed to `BatchWriteItem`, in order. -/
def submitted : List Event → List (List WriteRequest)
  | [] => []
  | Event.info _ :: rest => submitted rest
  | Event.batchWriteItem reqs :: rest => reqs :: submitted rest

/-! ## `FetchCustomer`, `FetchEmployee`, `FetchOrder` -/

/-- Inner loop `for attributeIndex, attributeName := range records[0]` of the
fetch functions for the data row `row`, from column `attributeIndex` on.
`none` is the run-time panic of `records[i][attributeIndex]` out of range. -/
def fetchRow (row : List String) :
    Nat → List String → DynamoInsertItem → Option DynamoInsertItem
  | _, [], newRow => some newRow
  | attributeIndex, attributeName :: rest, newRow =>
    match row[attributeIndex]? with
    | none => none
    | some cell => fetchRow row (attributeIndex + 1) rest (newRow.set attributeName cell)

/-- Outer loop `for i := 1; i < len(records); i++` of the fetch functions over
the data rows. -/
def fetchRows (header : List String) : List (List String) → Option (List DynamoInsertItem)
  | [] => some []
  | row :: rows =>
    match fetchRow row 0 header GoMap.empty with
    | none => none
    | some newRow =>
      match fetchRows header rows with
      | none => none
      | some items => some (newRow :: items)

/-- Go `FetchCustomer`.  The reader is given by what its `ReadAll` returns.
The outer `none` is a run-time panic: `make` with length `-1` on no records at
all, or a data row shorter than the header. -/
def FetchCustomer {ε : Type} (reader : Except ε (List (List String))) :
    Option (Except ε (List DynamoInsertItem)) :=
  match reader with
  | .error err => some (.error err)
  | .ok [] => none
  | .ok (header :: rows) =>
    match fetchRows header rows with
    | none => none
    | some customers => some (.ok customers)

/-- Go `FetchEmployee`. -/
def FetchEmployee {ε : Type} (reader : Except ε (List (List String))) :
    Option (Except ε (List DynamoInsertItem)) :=
  match reader with
  | .error err => some (.error err)
  | .ok [] => none
  | .ok (header :: rows) =>
    match fetchRows header rows with
    | none => none
    | some employees => some (.ok employees)

/-- Go `FetchOrder`. -/
def FetchOrder {ε : Type} (reader : Except ε (List (List String))) :
    Option (Except ε (List DynamoInsertItem)) :=
  match reader with
  | .error err => some (.error err)
  | .ok [] => none
  | .ok (header :: rows) =>
    match fetchRows header rows with
    | none => none
    | some orders => some (.ok orders)

/-! ## Specification-side definitions -/

/-- The rewritten value the specification of the Key Rewriter prescribes for a
field named `k` holding `v`: when `k` ends in `"ID"`, the name without its last
two characters, then `#`, then `v`; otherwise `v` itself. -/
def compositeValue (k v : String) : String :=
  if "ID".data <:+ k.data then String.mk k.data.dropLast.dropLast ++ "#" ++ v else v

/-- The secondary-index value the specification prescribes for the values
`vals` of the listed fields: their concatenation in list order, the value at
position `i` followed by one `#` exactly when `0 < i < n - 1`, for `n` values. -/
def secondaryIndexValue (vals : List String) : String :=
  (vals.enum.map
    (fun iv => if 0 < iv.1 ∧ iv.1 + 1 < vals.length then iv.2 ++ "#" else iv.2)).foldr
    (fun piece acc => piece ++ acc) ""

/-- The mapping `m` carries every field the schema needs: the primary-key
field, the sort-key field when it is mandatory, and every secondary-index
field. -/
def hasRequiredFields (pk sk : String) (skMandatory : Bool) (gs1Sks : List String)
    (m : DynamoInsertItem) : Prop :=
  (m.get? pk).isSome ∧ (skMandatory = true → (m.get? sk).isSome) ∧
    ∀ f ∈ gs1Sks, (m.get? f).isSome

/-- The record the specification of the Single-Table Encoder prescribes for a
mapping that carries every required field. -/
def encodedRecord (pk sk : String) (skMandatory : Bool) (gs1Sks : List String)
    (m : DynamoInsertItem) : WriteRequest :=
  { pk := (m.get? pk).getD ""
    sk := if skMandatory then (m.get? sk).getD "" else sk
    data := secondaryIndexValue (gs1Sks.map (fun f => (m.get? f).getD "")) }

instance (pk sk : String) (skMandatory : Bool) (gs1Sks : List String)
    (m : DynamoInsertItem) : Decidable (hasRequiredFields pk sk skMandatory gs1Sks m) := by
  unfold hasRequiredFields
  infer_instance

/-- The chunking the specification of the Batch Loader prescribes: chunk `j`
(counting from 0) holds the records at positions `25 * j` to `25 * j + 24` that
exist, and there are `⌈n / 25⌉` chunks for `n` records. -/
def chunks {α : Type} (l : List α) : List (List α) :=
  (List.range ((l.length + 24) / 25)).map (fun j => (l.drop (25 * j)).take 25)

/-- State of the store after `BatchWriteItem` has been called with each of the
chunks `cs` in turn, starting in state `st`. -/
def storeAfter {σ ε : Type} (client : σ → List WriteRequest → Option ε × σ) (st : σ) :
    List (List WriteRequest) → σ
  | [] => st
  | c :: cs => storeAfter client (client st c).2 cs

/-- The events of submitting the chunks `cs` one after the other, each one
announced by the log line carrying its batch counter, the first counter being
`batchCount`. -/
def tagged (batchCount : Nat) : List (List WriteRequest) → List Event
  | [] => []
  | c :: cs => Event.info batchCount :: Event.batchWriteItem c :: tagged (batchCount + 1) cs

/-- Sequential submission of a list of chunks that stops at the first error:
the reading of `batchLoop` over the chunk list. -/
def submitChunks {σ ε : Type} (client : σ → List WriteRequest → Option ε × σ)
    (st : σ) (batchCount : Nat) : List (List WriteRequest) → Option ε × σ × List Event
  | [] => (none, st, [])
  | c :: cs =>
    match (client st c).1 with
    | some err => (some err, (client st c).2, [Event.info batchCount, Event.batchWriteItem c])
    | none =>
      ((submitChunks client (client st c).2 (batchCount + 1) cs).1,
       (submitChunks client (client st c).2 (batchCount + 1) cs).2.1,
       Event.info batchCount :: Event.batchWriteItem c ::
         (submitChunks client (client st c).2 (batchCount + 1) cs).2.2)

/-- A store that answers every call with success. -/
def alwaysOk : Unit → List WriteRequest → Option String × Unit :=
  fun st _ => (none, st)

/-- A store that counts the calls made to it and fails the second one. -/
def failSecondCall : Nat → List WriteRequest → Option String × Nat :=
  fun st _ => (if st = 1 then some "boom" else none, st + 1)

/-! ## Theorems -/

theorem entriesGet_set (l : List (String × String)) (k v k' : String) :
    entriesGet (entriesSet l k v) k' = if k = k' then some v else entriesGet l k' := by
  induction l with
  | nil => simp [entriesSet, entriesGet]
  | cons hd tl ih =>
    obtain ⟨a, b⟩ := hd
    by_cases h : a = k
    · subst h
      by_cases h2 : a = k' <;> simp [entriesSet, entriesGet, h2]
    · by_cases h2 : a = k'
      · subst h2
        have : ¬ k = a := fun e => h e.symm
        simp [entriesSet, entriesGet, h, this]
      · simp [entriesSet, entriesGet, h, h2, ih]

theorem GoMap.get?_set (m : GoMap) (k v k' : String) :
    (m.set k v).get? k' = if k = k' then some v else m.get? k' :=
  entriesGet_set m.entries k v k'

theorem GoMap.get?_empty (k : String) : GoMap.empty.get? k = none := rfl

theorem entriesGet_eq_none {l : List (String × String)} {k : String}
    (h : k ∉ l.map Prod.fst) : entriesGet l k = none := by
  induction l with
  | nil => rfl
  | cons hd tl ih =>
    obtain ⟨a, b⟩ := hd
    simp only [List.map_cons, List.mem_cons, not_or] at h
    have : ¬ a = k := fun e => h.1 e.symm
    simp [entriesGet, this, ih h.2]

/-! ### `cleanUpData` -/

theorem hasSuffix_ID_iff (k : String) : HasSuffix k "ID" = true ↔ "ID".data <:+ k.data := by
  have hlen : "ID".length = 2 := by decide
  have hdat : "ID".data = ['I', 'D'] := rfl
  simp only [HasSuffix, Bool.and_eq_true, decide_eq_true_eq, beq_iff_eq, hlen, sliceFrom]
  constructor
  · rintro ⟨_, h2⟩
    have h3 : k.data.drop (k.length - 2) = "ID".data := congrArg String.data h2
    rw [hdat] at h3
    exact ⟨k.data.take (k.length - 2), by rw [← h3]; exact List.take_append_drop _ _⟩
  · rintro ⟨t, ht⟩
    have hl : k.length = t.length + 2 := by
      show k.data.length = _
      rw [← ht]; simp
    refine ⟨by omega, ?_⟩
    apply String.ext
    show k.data.drop (k.length - 2) = "ID".data
    rw [hl, ← ht]
    simp

theorem sliceTo_of_suffix (k : String) (h : "ID".data <:+ k.data) :
    sliceTo k (k.length - 2) = String.mk k.data.dropLast.dropLast := by
  obtain ⟨t, ht⟩ := h
  have hdat : "ID".data = ['I', 'D'] := rfl
  rw [hdat] at ht
  apply String.ext
  show k.data.take (k.data.length - 2) = k.data.dropLast.dropLast
  rw [← ht]
  simp [List.dropLast_append_cons]

theorem cleanUpEntry_eq (acc : DynamoInsertItem) (a b : String) :
    cleanUpEntry acc (a, b) =
      if "ID".data <:+ a.data then acc.set a (compositeValue a b) else acc := by
  by_cases h : "ID".data <:+ a.data
  · have h' := (hasSuffix_ID_iff a).2 h
    simp only [cleanUpEntry, h', if_true, h, compositeValue, sliceTo_of_suffix a h]
  · have h' : HasSuffix a "ID" = false := by
      rw [← Bool.not_eq_true, hasSuffix_ID_iff]; exact h
    simp [cleanUpEntry, h', h]

theorem cleanUp_foldl (l : List (String × String)) (hl : (l.map Prod.fst).Nodup)
    (acc : DynamoInsertItem) (k : String) :
    (l.foldl cleanUpEntry acc).get? k =
      match entriesGet l k with
      | some v => if "ID".data <:+ k.data then some (compositeValue k v) else acc.get? k
      | none => acc.get? k := by
  induction l generalizing acc with
  | nil => rfl
  | cons hd tl ih =>
    obtain ⟨a, b⟩ := hd
    rw [List.map_cons, List.nodup_cons] at hl
    rw [List.foldl_cons, ih hl.2, cleanUpEntry_eq]
    by_cases hk : a = k
    · subst hk
      rw [entriesGet_eq_none hl.1]
      by_cases hs : "ID".data <:+ a.data <;> simp [entriesGet, hs, GoMap.get?_set]
    · have e1 : entriesGet ((a, b) :: tl) k = entriesGet tl k := by simp [entriesGet, hk]
      have e2 : (if "ID".data <:+ a.data then acc.set a (compositeValue a b) else acc).get? k
          = acc.get? k := by
        split
        · simp [GoMap.get?_set, hk]
        · rfl
      rw [e1, e2]

theorem cleanUpItem_get? (item : DynamoInsertItem) (k : String) :
    (cleanUpItem item).get? k = (item.get? k).map (compositeValue k) := by
  unfold cleanUpItem
  rw [cleanUp_foldl item.entries item.nodup item k]
  show (match item.get? k with
    | some v => if "ID".data <:+ k.data then some (compositeValue k v) else item.get? k
    | none => item.get? k) = _
  cases h : item.get? k with
  | none => rfl
  | some v =>
    by_cases hs : "ID".data <:+ k.data
    · simp [hs]
    · simp [hs, compositeValue]

theorem cleanUpData_apply (data : List MapRef) :
    ∀ (heap : Heap) (a : MapRef),
      cleanUpData heap data a = cleanUpItem^[data.count a] (heap a) := by
  induction data with
  | nil => intro heap a; rfl
  | cons x tl ih =>
    intro heap a
    have hstep : cleanUpData heap (x :: tl) =
        cleanUpData (heap.store x (cleanUpItem (heap x))) tl := rfl
    rw [hstep, ih]
    by_cases hax : a = x
    · subst hax
      rw [List.count_cons_self, Function.iterate_succ_apply]
      simp [Heap.store]
    · rw [List.count_cons_of_ne hax]
      simp [Heap.store, hax]

theorem cleanUpData_apply_nodup (heap : Heap) (data : List MapRef) (hd : data.Nodup)
    (a : MapRef) :
    cleanUpData heap data a = if a ∈ data then cleanUpItem (heap a) else heap a := by
  rw [cleanUpData_apply]
  by_cases ha : a ∈ data
  · rw [if_pos ha, List.count_eq_one_of_mem hd ha]
    rfl
  · rw [if_neg ha, List.count_eq_zero_of_not_mem ha]
    rfl

/-- C3, counterexample. On a slice that holds the same map object twice, with
`fooID` holding `7`, `cleanUpData` leaves `foo#foo#7` in `fooID`, not the
`foo#7` the claim prescribes. -/
theorem cleanUpData_repeated_object :
    (cleanUpData (fun _ => GoMap.ofList [("fooID", "7")]) [0, 0] 0).get? "fooID"
      = some "foo#foo#7" ∧
    (cleanUpData (fun _ => GoMap.ofList [("fooID", "7")]) [0, 0] 0).get? "fooID"
      ≠ ((GoMap.ofList [("fooID", "7")]).get? "fooID").map (compositeValue "fooID") ∧
    ((GoMap.ofList [("fooID", "7")]).get? "fooID").map (compositeValue "fooID")
      = some "foo#7" := by
  decide

/-- C3, amended. For a slice of pairwise distinct map objects and every map
object in it, `cleanUpData` keeps every field name `k` absent when it was
absent and otherwise turns its value `v` into the name without its last two
characters followed by `#` and `v` when `k` ends in `"ID"`, and into `v`
itself when it does not. -/
theorem cleanUpData_rewrites (heap : Heap) (data : List MapRef) (a : MapRef) (k : String)
    (hd : data.Nodup) (ha : a ∈ data) :
    (cleanUpData heap data a).get? k = ((heap a).get? k).map (compositeValue k) := by
  rw [cleanUpData_apply_nodup heap data hd a, if_pos ha, cleanUpItem_get?]

theorem cleanUpData_rewrites_witness :
    [0, 1].Nodup ∧ 1 ∈ [0, 1] ∧
    (cleanUpData
      (fun a => if a = 0 then GoMap.ofList [("fooID", "7"), ("name", "x")]
        else GoMap.ofList [("productID", "12345")])
      [0, 1] 1).get? "productID" =
      ((GoMap.ofList [("productID", "12345")]).get? "productID").map
        (compositeValue "productID") :=
  ⟨by decide, by decide,
    cleanUpData_rewrites
      (fun a => if a = 0 then GoMap.ofList [("fooID", "7"), ("name", "x")]
        else GoMap.ofList [("productID", "12345")])
      [0, 1] 1 "productID" (by decide) (by decide)⟩

theorem cleanUpData_examples :
    compositeValue "fooID" "7" = "foo#7" ∧
    compositeValue "productID" "12345" = "product#12345" ∧
    compositeValue "contactName" "Bob" = "Bob" ∧
    (cleanUpData (fun _ => GoMap.ofList [("fooID", "7"), ("name", "x")]) [0] 0).entries =
      [("fooID", "foo#7"), ("name", "x")] := by
  decide

/-! ### `getItemsToInsert` -/

theorem push_hash (s : String) : s.push '#' = s ++ "#" := by
  apply String.ext
  rw [String.data_append]
  rfl

theorem gs1Loop_ok (insertItem : DynamoInsertItem) (gs1Sks : List String) :
    ∀ (rest : List String) (idx : Nat) (gs1String : String),
      idx + rest.length = gs1Sks.length →
      (∀ f ∈ rest, (insertItem.get? f).isSome) →
      gs1Loop insertItem gs1Sks idx rest gs1String =
        .ok (gs1String ++
          (((rest.map (fun f => (insertItem.get? f).getD "")).enumFrom idx).map
            (fun iv => if 0 < iv.1 ∧ iv.1 + 1 < gs1Sks.length
              then iv.2 ++ "#" else iv.2)).foldr (fun piece acc => piece ++ acc) "") := by
  intro rest
  induction rest with
  | nil =>
    intro idx gs1String _ _
    simp only [gs1Loop, List.map_nil, List.enumFrom_nil, List.foldr_nil]
    congr 1
    apply String.ext
    simp
  | cons f tl ih =>
    intro idx gs1String hlen hall
    have hf := hall f (List.mem_cons_self _ _)
    obtain ⟨v, hv⟩ := Option.isSome_iff_exists.1 hf
    have htl : ∀ g ∈ tl, (insertItem.get? g).isSome :=
      fun g hg => hall g (List.mem_cons_of_mem _ hg)
    have hlen' : idx + 1 + tl.length = gs1Sks.length := by
      simp only [List.length_cons] at hlen; omega
    have hcond : (idx > 0 ∧ (idx : Int) ≠ (gs1Sks.length : Int) - 1) ↔
        (0 < idx ∧ idx + 1 < gs1Sks.length) := by
      constructor
      · rintro ⟨h1, h2⟩; exact ⟨h1, by omega⟩
      · rintro ⟨h1, h2⟩; exact ⟨h1, by omega⟩
    simp only [gs1Loop, hv, List.map_cons, List.enumFrom_cons, List.foldr_cons,
      Option.getD_some]
    rw [ih (idx + 1) _ hlen' htl]
    congr 1
    by_cases hc : 0 < idx ∧ idx + 1 < gs1Sks.length
    · rw [if_pos (hcond.2 hc), if_pos hc, push_hash]
      simp only [String.append_assoc]
    · rw [if_neg (fun h => hc (hcond.1 h)), if_neg hc]
      simp only [String.append_assoc]

theorem gs1Loop_data (insertItem : DynamoInsertItem) (gs1Sks : List String)
    (hall : ∀ f ∈ gs1Sks, (insertItem.get? f).isSome) :
    gs1Loop insertItem gs1Sks 0 gs1Sks "" =
      .ok (secondaryIndexValue (gs1Sks.map (fun f => (insertItem.get? f).getD ""))) := by
  rw [gs1Loop_ok insertItem gs1Sks gs1Sks 0 "" (by simp) hall]
  congr 1
  have : ("" : String) ++ secondaryIndexValue (gs1Sks.map (fun f => (insertItem.get? f).getD ""))
      = secondaryIndexValue (gs1Sks.map (fun f => (insertItem.get? f).getD "")) := by
    apply String.ext; simp
  rw [← this]
  simp [secondaryIndexValue, List.enum]

theorem itemsLoop_valid_cons (pk sk : String) (skMandatory : Bool) (gs1Sks : List String)
    (idx : Nat) (m : DynamoInsertItem) (rest : List DynamoInsertItem)
    (acc : List WriteRequest) (hm : hasRequiredFields pk sk skMandatory gs1Sks m) :
    itemsLoop pk sk skMandatory gs1Sks idx (m :: rest) acc =
      itemsLoop pk sk skMandatory gs1Sks (idx + 1) rest
        (acc ++ [encodedRecord pk sk skMandatory gs1Sks m]) := by
  obtain ⟨hpk, hsk, hgs⟩ := hm
  obtain ⟨pv, hpv⟩ := Option.isSome_iff_exists.1 hpk
  cases skMandatory with
  | false =>
    simp [itemsLoop, hpv, gs1Loop_data m gs1Sks hgs, encodedRecord]
  | true =>
    obtain ⟨sv, hsv⟩ := Option.isSome_iff_exists.1 (hsk rfl)
    simp [itemsLoop, hpv, hsv, gs1Loop_data m gs1Sks hgs, encodedRecord]

theorem itemsLoop_valid_append (pk sk : String) (skMandatory : Bool) (gs1Sks : List String) :
    ∀ (pre : List DynamoInsertItem) (idx : Nat) (rest : List DynamoInsertItem)
      (acc : List WriteRequest),
      (∀ m ∈ pre, hasRequiredFields pk sk skMandatory gs1Sks m) →
      itemsLoop pk sk skMandatory gs1Sks idx (pre ++ rest) acc =
        itemsLoop pk sk skMandatory gs1Sks (idx + pre.length) rest
          (acc ++ pre.map (encodedRecord pk sk skMandatory gs1Sks)) := by
  intro pre
  induction pre with
  | nil => intro idx rest acc _; simp
  | cons m tl ih =>
    intro idx rest acc hall
    rw [List.cons_append, itemsLoop_valid_cons pk sk skMandatory gs1Sks idx m _ acc
      (hall m (List.mem_cons_self _ _)),
      ih (idx + 1) rest _ (fun x hx => hall x (List.mem_cons_of_mem _ hx))]
    simp only [List.length_cons, List.map_cons, List.append_assoc, List.singleton_append]
    congr 1
    omega

theorem getItemsToInsert_valid (insertItems : List DynamoInsertItem) (pk sk : String)
    (skMandatory : Bool) (gs1Sks : List String)
    (hall : ∀ m ∈ insertItems, hasRequiredFields pk sk skMandatory gs1Sks m) :
    getItemsToInsert insertItems pk sk skMandatory gs1Sks =
      .ok (insertItems.map (encodedRecord pk sk skMandatory gs1Sks)) := by
  have h := itemsLoop_valid_append pk sk skMandatory gs1Sks insertItems 0 [] [] hall
  rw [List.append_nil] at h
  rw [getItemsToInsert, h]
  simp [itemsLoop]

/-- C1. When every mapping carries the fields the schema needs,
`getItemsToInsert` succeeds and the `data` attribute of the record of each
mapping is the concatenation, in list order, of the mapping's values at the
secondary-index fields, the value at position `i` followed by one `#` exactly
when `0 < i < n - 1`. -/
theorem getItemsToInsert_data (insertItems : List DynamoInsertItem) (pk sk : String)
    (skMandatory : Bool) (gs1Sks : List String)
    (hall : ∀ m ∈ insertItems, hasRequiredFields pk sk skMandatory gs1Sks m) :
    ∃ recs, getItemsToInsert insertItems pk sk skMandatory gs1Sks = .ok recs ∧
      recs.map (fun r => r.data) = insertItems.map (fun m =>
        secondaryIndexValue (gs1Sks.map (fun f => (m.get? f).getD ""))) := by
  refine ⟨_, getItemsToInsert_valid insertItems pk sk skMandatory gs1Sks hall, ?_⟩
  simp [encodedRecord]

theorem getItemsToInsert_data_witness :
    (∀ m ∈ [GoMap.ofList [("p", "P"), ("a", "A"), ("b", "B"), ("c", "C")]],
        hasRequiredFields "p" "S" false ["a", "b", "c"] m) ∧
    ∃ recs, getItemsToInsert [GoMap.ofList [("p", "P"), ("a", "A"), ("b", "B"), ("c", "C")]]
        "p" "S" false ["a", "b", "c"] = .ok recs ∧
      recs.map (fun r => r.data) =
        [GoMap.ofList [("p", "P"), ("a", "A"), ("b", "B"), ("c", "C")]].map (fun m =>
          secondaryIndexValue (["a", "b", "c"].map (fun f => (m.get? f).getD ""))) :=
  ⟨by decide, getItemsToInsert_data _ "p" "S" false ["a", "b", "c"] (by decide)⟩

theorem secondaryIndexValue_examples :
    secondaryIndexValue [] = "" ∧
    secondaryIndexValue ["A", "B"] = "AB" ∧
    secondaryIndexValue ["A", "B", "C"] = "AB#C" ∧
    secondaryIndexValue ["A", "B", "C", "D"] = "AB#C#D" ∧
    getItemsToInsert [GoMap.ofList [("p", "P"), ("a", "A"), ("b", "B"), ("c", "C")]]
        "p" "S" false [] = .ok [{ pk := "P", sk := "S", data := "" }] ∧
    getItemsToInsert [GoMap.ofList [("p", "P"), ("a", "A"), ("b", "B"), ("c", "C")]]
        "p" "S" false ["a", "b"] = .ok [{ pk := "P", sk := "S", data := "AB" }] ∧
    getItemsToInsert [GoMap.ofList [("p", "P"), ("a", "A"), ("b", "B"), ("c", "C")]]
        "p" "S" false ["a", "b", "c"] = .ok [{ pk := "P", sk := "S", data := "AB#C" }] :=
  ⟨by decide, by decide, by decide, by decide, rfl, rfl, rfl⟩

/-- C4. When every mapping carries the primary-key field, the sort-key field if
it is mandatory, and every secondary-index field, `getItemsToInsert` succeeds
with one record per mapping in input order; the record's `pk` is the mapping's
value at the primary-key field, and its `sk` is the mapping's value at `sk` when
`skMandatory` is true and the literal `sk` otherwise. -/
theorem getItemsToInsert_keys (insertItems : List DynamoInsertItem) (pk sk : String)
    (skMandatory : Bool) (gs1Sks : List String)
    (hall : ∀ m ∈ insertItems, hasRequiredFields pk sk skMandatory gs1Sks m) :
    ∃ recs, getItemsToInsert insertItems pk sk skMandatory gs1Sks = .ok recs ∧
      recs.length = insertItems.length ∧
      recs.map (fun r => some r.pk) = insertItems.map (fun m => m.get? pk) ∧
      recs.map (fun r => some r.sk) =
        insertItems.map (fun m => if skMandatory = true then m.get? sk else some sk) := by
  refine ⟨_, getItemsToInsert_valid insertItems pk sk skMandatory gs1Sks hall, ?_, ?_, ?_⟩
  · simp
  · rw [List.map_map]
    apply List.map_congr_left
    intro m hm
    obtain ⟨v, hv⟩ := Option.isSome_iff_exists.1 (hall m hm).1
    simp [encodedRecord, hv]
  · rw [List.map_map]
    apply List.map_congr_left
    intro m hm
    cases skMandatory with
    | false => simp [encodedRecord]
    | true =>
      obtain ⟨v, hv⟩ := Option.isSome_iff_exists.1 ((hall m hm).2.1 rfl)
      simp [encodedRecord, hv]

theorem getItemsToInsert_keys_witness :
    (∀ m ∈ [GoMap.ofList [("orderID", "order#1"), ("orderDate", "d1"), ("ORDER", "x")],
            GoMap.ofList [("orderID", "order#2"), ("orderDate", "d2")]],
        hasRequiredFields "orderID" "ORDER" false ["orderDate"] m) ∧
    ∃ recs, getItemsToInsert
        [GoMap.ofList [("orderID", "order#1"), ("orderDate", "d1"), ("ORDER", "x")],
         GoMap.ofList [("orderID", "order#2"), ("orderDate", "d2")]]
        "orderID" "ORDER" false ["orderDate"] = .ok recs ∧
      recs.length = 2 ∧
      recs.map (fun r => some r.pk) = [some "order#1", some "order#2"] ∧
      recs.map (fun r => some r.sk) = [some "ORDER", some "ORDER"] :=
  ⟨by decide, getItemsToInsert_keys _ "orderID" "ORDER" false ["orderDate"] (by decide)⟩

/-- C6. When every mapping before index `i` carries the fields the schema needs
and the mapping at index `i` lacks the primary-key field, `getItemsToInsert`
returns no records and the error `missing pk '<pk>' on item <i>`. -/
theorem getItemsToInsert_missing_pk (pre post : List DynamoInsertItem)
    (bad : DynamoInsertItem) (pk sk : String) (skMandatory : Bool) (gs1Sks : List String)
    (hpre : ∀ m ∈ pre, hasRequiredFields pk sk skMandatory gs1Sks m)
    (hbad : bad.get? pk = none) :
    (pre ++ bad :: post)[pre.length]? = some bad ∧
    getItemsToInsert (pre ++ bad :: post) pk sk skMandatory gs1Sks =
      .error ("missing pk '" ++ pk ++ "' on item " ++ toString pre.length) := by
  refine ⟨by rw [List.getElem?_append_right (Nat.le_refl _)]; simp, ?_⟩
  rw [getItemsToInsert, itemsLoop_valid_append pk sk skMandatory gs1Sks pre 0 _ [] hpre]
  simp [itemsLoop, hbad]

theorem getItemsToInsert_missing_pk_witness :
    (∀ m ∈ [GoMap.ofList [("id", "1"), ("n", "a")], GoMap.ofList [("id", "2"), ("n", "b")]],
        hasRequiredFields "id" "n" true [] m) ∧
    (GoMap.ofList [("n", "c")]).get? "id" = none ∧
    getItemsToInsert
        [GoMap.ofList [("id", "1"), ("n", "a")], GoMap.ofList [("id", "2"), ("n", "b")],
         GoMap.ofList [("n", "c")], GoMap.ofList [("id", "4"), ("n", "d")]]
        "id" "n" true [] = .error "missing pk 'id' on item 2" :=
  ⟨by decide, by decide,
    (getItemsToInsert_missing_pk
      [GoMap.ofList [("id", "1"), ("n", "a")], GoMap.ofList [("id", "2"), ("n", "b")]]
      [GoMap.ofList [("id", "4"), ("n", "d")]] (GoMap.ofList [("n", "c")])
      "id" "n" true [] (by decide) (by decide)).2⟩

/-- C5. Evaluation of `getItemsToInsert` on two mappings where the second one
(index 1) carries the primary key but lacks the only secondary-index field
`a`: no records are returned and the message names the field `a`, but the
number in it is 0, the position of `a` in the field list, not the item's
index 1. -/
theorem getItemsToInsert_missing_gs1Sk_index :
    hasRequiredFields "p" "S" false ["a"] (GoMap.ofList [("p", "P1"), ("a", "A1")]) ∧
    (GoMap.ofList [("p", "P2")]).get? "p" = some "P2" ∧
    (GoMap.ofList [("p", "P2")]).get? "a" = none ∧
    getItemsToInsert [GoMap.ofList [("p", "P1"), ("a", "A1")], GoMap.ofList [("p", "P2")]]
        "p" "S" false ["a"] = .error "missing gs1Sk key a on item 0" ∧
    getItemsToInsert [GoMap.ofList [("p", "P1"), ("a", "A1")], GoMap.ofList [("p", "P2")]]
        "p" "S" false ["a"] ≠
      .error ("missing gs1Sk key a on item " ++ toString (1 : Nat)) := by
  refine ⟨by decide, by decide, by decide, rfl, ?_⟩
  intro h
  have h2 : "missing gs1Sk key a on item 0" = "missing gs1Sk key a on item 1" :=
    Except.error.inj h
  exact absurd h2 (by decide)

theorem itemsLoop_nonempty_keys (pk sk : String) (skMandatory : Bool) (gs1Sks : List String)
    (hsk : skMandatory = false → sk ≠ "") :
    ∀ (items : List DynamoInsertItem) (idx : Nat) (acc recs : List WriteRequest),
      itemsLoop pk sk skMandatory gs1Sks idx items acc = .ok recs →
      (∀ r ∈ acc, r.pk ≠ "" ∧ r.sk ≠ "") →
      (∀ m ∈ items, m.get? pk ≠ some "") →
      (skMandatory = true → ∀ m ∈ items, m.get? sk ≠ some "") →
      ∀ r ∈ recs, r.pk ≠ "" ∧ r.sk ≠ "" := by
  intro items
  induction items with
  | nil =>
    intro idx acc recs h hacc _ _
    simp only [itemsLoop, Except.ok.injEq] at h
    subst h
    exact hacc
  | cons m tl ih =>
    intro idx acc recs h hacc hpk hskv
    have hpkm := hpk m (List.mem_cons_self _ _)
    have hpk' : ∀ x ∈ tl, x.get? pk ≠ some "" := fun x hx => hpk x (List.mem_cons_of_mem _ hx)
    have hskv' : skMandatory = true → ∀ x ∈ tl, x.get? sk ≠ some "" :=
      fun e x hx => hskv e x (List.mem_cons_of_mem _ hx)
    cases hp : m.get? pk with
    | none => simp [itemsLoop, hp] at h
    | some pv =>
      have hpv : pv ≠ "" := fun e => hpkm (by rw [hp, e])
      cases hg : gs1Loop m gs1Sks 0 gs1Sks "" with
      | error e =>
        cases skMandatory with
        | false => simp [itemsLoop, hp, hg] at h
        | true =>
          cases hs : m.get? sk with
          | none => simp [itemsLoop, hp, hs] at h
          | some sv => simp [itemsLoop, hp, hs, hg] at h
      | ok d =>
        cases skMandatory with
        | false =>
          simp only [itemsLoop, hp, hg, Bool.false_eq_true, if_false] at h
          refine ih _ _ _ h ?_ hpk' hskv'
          intro r hr
          rcases List.mem_append.1 hr with hr | hr
          · exact hacc r hr
          · rw [List.mem_singleton] at hr
            subst hr
            exact ⟨hpv, hsk rfl⟩
        | true =>
          cases hs : m.get? sk with
          | none => simp [itemsLoop, hp, hs] at h
          | some sv =>
            have hsv : sv ≠ "" := fun e =>
              hskv rfl m (List.mem_cons_self _ _) (by rw [hs, e])
            simp only [itemsLoop, hp, hs, hg, if_true] at h
            refine ih _ _ _ h ?_ hpk' hskv'
            intro r hr
            rcases List.mem_append.1 hr with hr | hr
            · exact hacc r hr
            · rw [List.mem_singleton] at hr
              subst hr
              exact ⟨hpv, hsv⟩

/-- C9, counterexample. An employee row whose `reportsTo` cell is empty is
encoded successfully and its record has the empty sort key. -/
theorem getItemsToInsert_empty_sort_key :
    ∃ recs, getItemsToInsert
        [GoMap.ofList [("employeeID", "employee#2"), ("reportsTo", ""), ("hireDate", "1992")]]
        "employeeID" "reportsTo" true ["hireDate"] = .ok recs ∧
      ¬ ∀ r ∈ recs, r.pk ≠ "" ∧ r.sk ≠ "" :=
  ⟨[{ pk := "employee#2", sk := "", data := "1992" }], rfl, by decide⟩

/-- C9, amended. When `getItemsToInsert` succeeds, no mapping holds the empty
string at the primary-key field, and the source of the sort key (the mapping's
value at `sk` when `skMandatory` is true, the literal `sk` otherwise) is not
the empty string, every returned record has a non-empty `pk` and a non-empty
`sk`. -/
theorem getItemsToInsert_nonempty_keys (insertItems : List DynamoInsertItem) (pk sk : String)
    (skMandatory : Bool) (gs1Sks : List String) (recs : List WriteRequest)
    (h : getItemsToInsert insertItems pk sk skMandatory gs1Sks = .ok recs)
    (hpk : ∀ m ∈ insertItems, m.get? pk ≠ some "")
    (hskv : skMandatory = true → ∀ m ∈ insertItems, m.get? sk ≠ some "")
    (hsk : skMandatory = false → sk ≠ "") :
    ∀ r ∈ recs, r.pk ≠ "" ∧ r.sk ≠ "" :=
  itemsLoop_nonempty_keys pk sk skMandatory gs1Sks hsk insertItems 0 [] recs h
    (by simp) hpk hskv

theorem getItemsToInsert_nonempty_keys_witness :
    getItemsToInsert
        [GoMap.ofList [("employeeID", "employee#2"), ("reportsTo", "employee#1"),
          ("hireDate", "1992")]]
        "employeeID" "reportsTo" true ["hireDate"] =
      .ok [{ pk := "employee#2", sk := "employee#1", data := "1992" }] ∧
    ∀ r ∈ [({ pk := "employee#2", sk := "employee#1", data := "1992" } : WriteRequest)],
      r.pk ≠ "" ∧ r.sk ≠ "" :=
  ⟨rfl, getItemsToInsert_nonempty_keys
    [GoMap.ofList [("employeeID", "employee#2"), ("reportsTo", "employee#1"),
      ("hireDate", "1992")]]
    "employeeID" "reportsTo" true ["hireDate"] _ rfl (by decide) (by decide) (by decide)⟩

/-! ### `BatchInsert` -/

theorem chunks_nil {α : Type} : chunks ([] : List α) = [] := by
  simp [chunks]

theorem chunks_cons {α : Type} (l : List α) (h : l ≠ []) :
    chunks l = l.take 25 :: chunks (l.drop 25) := by
  have hpos : 0 < l.length := List.length_pos.2 h
  have hcount : (l.length + 24) / 25 = ((l.drop 25).length + 24) / 25 + 1 := by
    rw [List.length_drop]; omega
  unfold chunks
  rw [hcount, List.range_succ_eq_map, List.map_cons, List.map_map]
  congr 1
  apply List.map_congr_left
  intro j _
  simp only [Function.comp, List.drop_drop]
  congr 2
  omega

theorem chunks_eq_nil_iff {α : Type} (l : List α) : chunks l = [] ↔ l = [] := by
  constructor
  · intro h
    by_contra hne
    rw [chunks_cons l hne] at h
    exact List.cons_ne_nil _ _ h
  · intro h; subst h; exact chunks_nil

theorem chunks_props {α : Type} : ∀ (n : Nat) (l : List α), l.length = n →
    (chunks l).flatten = l ∧ (∀ c ∈ chunks l, 1 ≤ c.length ∧ c.length ≤ 25) ∧
      (∀ c ∈ (chunks l).dropLast, c.length = 25) ∧
      (chunks l).length = (l.length + 24) / 25 := by
  intro n
  induction n using Nat.strong_induction_on with
  | _ n ih =>
    intro l hl
    by_cases hnil : l = []
    · subst hnil
      simp [chunks_nil]
    · have hpos : 0 < l.length := List.length_pos.2 hnil
      have hlt : (l.drop 25).length < n := by rw [List.length_drop]; omega
      obtain ⟨h1, h2, h3, h4⟩ := ih _ hlt (l.drop 25) rfl
      rw [chunks_cons l hnil]
      refine ⟨?_, ?_, ?_, ?_⟩
      · rw [List.flatten_cons, h1, List.take_append_drop]
      · intro c hc
        rcases List.mem_cons.1 hc with hc | hc
        · subst hc
          rw [List.length_take]
          omega
        · exact h2 c hc
      · intro c hc
        by_cases hrest : chunks (l.drop 25) = []
        · rw [hrest] at hc
          simp at hc
        · rw [List.dropLast_cons_of_ne_nil hrest] at hc
          rcases List.mem_cons.1 hc with hc | hc
          · subst hc
            have hd : l.drop 25 ≠ [] := fun e => hrest ((chunks_eq_nil_iff _).2 e)
            have : 0 < (l.drop 25).length := List.length_pos.2 hd
            rw [List.length_drop] at this
            rw [List.length_take]
            omega
          · exact h3 c hc
      · rw [List.length_cons, h4, List.length_drop]
        omega

theorem insertIntoDynamo_nonempty {σ ε : Type} (client : σ → List WriteRequest → Option ε × σ)
    (st : σ) (batchCount : Nat) (c : List WriteRequest) (h : c ≠ []) :
    insertIntoDynamo client st batchCount c =
      ((client st c).1, (client st c).2, [Event.info batchCount, Event.batchWriteItem c]) := by
  have : c.length ≠ 0 := fun e => h (List.length_eq_zero.1 e)
  simp [insertIntoDynamo, this]

theorem batchLoop_nil {σ ε : Type} (client : σ → List WriteRequest → Option ε × σ)
    (st : σ) (batchCount : Nat) :
    batchLoop client st batchCount [] = (none, st, [Event.info batchCount]) := by
  rw [batchLoop]
  simp [insertIntoDynamo]

theorem batchLoop_eq_submitChunks {σ ε : Type}
    (client : σ → List WriteRequest → Option ε × σ) :
    ∀ (n : Nat) (writeRequests : List WriteRequest) (st : σ) (batchCount : Nat),
      writeRequests.length = n → writeRequests ≠ [] →
      batchLoop client st batchCount writeRequests =
        submitChunks client st batchCount (chunks writeRequests) := by
  intro n
  induction n using Nat.strong_induction_on with
  | _ n ih =>
    intro wrs st bc hl hne
    have hpos : 0 < wrs.length := List.length_pos.2 hne
    rw [chunks_cons wrs hne, batchLoop]
    by_cases hbig : wrs.length > 25
    · have htake : wrs.take 25 ≠ [] := by
        intro e
        have := congrArg List.length e
        rw [List.length_take, List.length_nil] at this
        omega
      have hdrop : wrs.drop 25 ≠ [] := by
        intro e
        have := congrArg List.length e
        rw [List.length_drop, List.length_nil] at this
        omega
      have hlt : (wrs.drop 25).length < n := by rw [List.length_drop]; omega
      rw [dif_pos hbig, insertIntoDynamo_nonempty client st bc _ htake]
      simp only [submitChunks]
      cases hres : (client st (List.take 25 wrs)).1 with
      | some err => rfl
      | none =>
        simp only []
        rw [ih _ hlt (wrs.drop 25) _ (bc + 1) rfl hdrop]
        rfl
    · have hle : wrs.length ≤ 25 := by omega
      rw [dif_neg hbig, insertIntoDynamo_nonempty client st bc _ hne,
        List.take_of_length_le hle, List.drop_eq_nil_of_le hle, chunks_nil]
      simp only [submitChunks]
      cases hres : (client st wrs).1 with
      | some err => rfl
      | none => rfl

theorem submitted_tagged (batchCount : Nat) (cs : List (List WriteRequest)) :
    submitted (tagged batchCount cs) = cs := by
  induction cs generalizing batchCount with
  | nil => rfl
  | cons c cs ih => simp [tagged, submitted, ih]

theorem submitChunks_all_ok {σ ε : Type} (client : σ → List WriteRequest → Option ε × σ) :
    ∀ (cs : List (List WriteRequest)) (st : σ) (batchCount : Nat),
      (∀ j cj, cs[j]? = some cj →
        (client (storeAfter client st (cs.take j)) cj).1 = none) →
      submitChunks client st batchCount cs =
        (none, storeAfter client st cs, tagged batchCount cs) := by
  intro cs
  induction cs with
  | nil => intro st bc _; rfl
  | cons c cs ih =>
    intro st bc hok
    have h0 : (client st c).1 = none := by
      have := hok 0 c (by simp)
      simpa [storeAfter] using this
    have hok' : ∀ j cj, cs[j]? = some cj →
        (client (storeAfter client (client st c).2 (cs.take j)) cj).1 = none := by
      intro j cj hcj
      have := hok (j + 1) cj (by simpa using hcj)
      simpa [storeAfter] using this
    simp only [submitChunks, h0, ih (client st c).2 (bc + 1) hok', storeAfter, tagged]

/-- C2. When every call `BatchInsert` makes to the store succeeds, it returns
no error and the chunks it hands to the store are, in order, the chunking of
the input: their concatenation is the input, every chunk has between 1 and 25
records, every chunk but the last has exactly 25, and there are `⌈n / 25⌉` of
them (none for no records). -/
theorem BatchInsert_all_succeed {σ ε : Type} (client : σ → List WriteRequest → Option ε × σ)
    (st : σ) (writeRequests : List WriteRequest)
    (hok : ∀ j cj, (chunks writeRequests)[j]? = some cj →
      (client (storeAfter client st ((chunks writeRequests).take j)) cj).1 = none) :
    (BatchInsert client st writeRequests).1 = none ∧
    submitted (BatchInsert client st writeRequests).2.2 = chunks writeRequests ∧
    (submitted (BatchInsert client st writeRequests).2.2).flatten = writeRequests ∧
    (∀ c ∈ submitted (BatchInsert client st writeRequests).2.2,
      1 ≤ c.length ∧ c.length ≤ 25) ∧
    (∀ c ∈ (submitted (BatchInsert client st writeRequests).2.2).dropLast, c.length = 25) ∧
    (submitted (BatchInsert client st writeRequests).2.2).length =
      (writeRequests.length + 24) / 25 := by
  have key : (BatchInsert client st writeRequests).1 = none ∧
      submitted (BatchInsert client st writeRequests).2.2 = chunks writeRequests := by
    by_cases hne : writeRequests = []
    · subst hne
      rw [BatchInsert, batchLoop_nil]
      exact ⟨rfl, chunks_nil.symm⟩
    · rw [BatchInsert, batchLoop_eq_submitChunks client _ writeRequests st 1 rfl hne,
        submitChunks_all_ok client _ st 1 hok]
      exact ⟨rfl, submitted_tagged 1 _⟩
  obtain ⟨h1, h2, h3, h4⟩ := chunks_props _ writeRequests rfl
  rw [key.2]
  exact ⟨key.1, rfl, h1, h2, h3, h4⟩

theorem BatchInsert_all_succeed_witness :
    (∀ j cj, (chunks (List.replicate 26 ({ pk := "p", sk := "s", data := "d" } : WriteRequest)))[j]?
        = some cj →
      (alwaysOk (storeAfter alwaysOk ()
        ((chunks (List.replicate 26 ({ pk := "p", sk := "s", data := "d" } : WriteRequest))).take
          j)) cj).1 = none) ∧
    (BatchInsert alwaysOk () (List.replicate 26 { pk := "p", sk := "s", data := "d" })).1
      = none ∧
    submitted (BatchInsert alwaysOk ()
        (List.replicate 26 { pk := "p", sk := "s", data := "d" })).2.2 =
      chunks (List.replicate 26 { pk := "p", sk := "s", data := "d" }) ∧
    (submitted (BatchInsert alwaysOk ()
        (List.replicate 26 { pk := "p", sk := "s", data := "d" })).2.2).length =
      (26 + 24) / 25 :=
  ⟨fun _ _ _ => rfl,
    (BatchInsert_all_succeed alwaysOk () (List.replicate 26 { pk := "p", sk := "s", data := "d" })
      (fun _ _ _ => rfl)).1,
    (BatchInsert_all_succeed alwaysOk () (List.replicate 26 { pk := "p", sk := "s", data := "d" })
      (fun _ _ _ => rfl)).2.1,
    (BatchInsert_all_succeed alwaysOk () (List.replicate 26 { pk := "p", sk := "s", data := "d" })
      (fun _ _ _ => rfl)).2.2.2.2.2⟩

theorem chunks_examples (r : WriteRequest) :
    chunks (List.replicate 0 r) = [] ∧
    chunks (List.replicate 25 r) = [List.replicate 25 r] ∧
    chunks (List.replicate 26 r) = [List.replicate 25 r, List.replicate 1 r] ∧
    chunks (List.replicate 50 r) = [List.replicate 25 r, List.replicate 25 r] := by
  refine ⟨?_, ?_, ?_, ?_⟩ <;>
    simp [chunks, List.range_succ, List.replicate, List.take, List.drop]

theorem submitChunks_first_failure {σ ε : Type}
    (client : σ → List WriteRequest → Option ε × σ) (e : ε) :
    ∀ (cs : List (List WriteRequest)) (i : Nat) (c : List WriteRequest) (st : σ)
      (batchCount : Nat),
      cs[i]? = some c →
      (∀ j cj, j < i → cs[j]? = some cj →
        (client (storeAfter client st (cs.take j)) cj).1 = none) →
      (client (storeAfter client st (cs.take i)) c).1 = some e →
      submitChunks client st batchCount cs =
        (some e, storeAfter client st (cs.take (i + 1)), tagged batchCount (cs.take (i + 1))) := by
  intro cs
  induction cs with
  | nil => intro i c st bc hc; simp at hc
  | cons c0 cs ih =>
    intro i c st bc hc hprev hfail
    cases i with
    | zero =>
      simp only [List.getElem?_cons_zero, Option.some.injEq] at hc
      subst hc
      simp only [List.take_zero, storeAfter] at hfail
      simp only [submitChunks, hfail, List.take_succ_cons, List.take_zero, storeAfter, tagged]
    | succ i =>
      have h0 : (client st c0).1 = none := by
        have := hprev 0 c0 (Nat.succ_pos _) (by simp)
        simpa [storeAfter] using this
      have hc' : cs[i]? = some c := by simpa using hc
      have hprev' : ∀ j cj, j < i → cs[j]? = some cj →
          (client (storeAfter client (client st c0).2 (cs.take j)) cj).1 = none := by
        intro j cj hj hcj
        have := hprev (j + 1) cj (Nat.succ_lt_succ hj) (by simpa using hcj)
        simpa [storeAfter] using this
      have hfail' : (client (storeAfter client (client st c0).2 (cs.take i)) c).1 = some e := by
        simpa [storeAfter] using hfail
      simp only [submitChunks, h0, ih i c (client st c0).2 (bc + 1) hc' hprev' hfail',
        List.take_succ_cons, storeAfter, tagged]

/-- C7. When the chunking of the input has a `k`-th chunk (`k` counted from 1),
the store accepts the chunks before it and answers the call for chunk `k` with
the error `e`, `BatchInsert` returns exactly `e`; what it did is, in order and
for `j = 1, ..., k`, the log line with batch counter `j` followed by the store
call for chunk `j`, and nothing else; the store is left in the state reached
after these `k` calls. -/
theorem BatchInsert_first_failure {σ ε : Type} (client : σ → List WriteRequest → Option ε × σ)
    (st : σ) (writeRequests : List WriteRequest) (k : Nat) (c : List WriteRequest) (e : ε)
    (hk : 1 ≤ k) (hc : (chunks writeRequests)[k - 1]? = some c)
    (hprev : ∀ j cj, j + 1 < k → (chunks writeRequests)[j]? = some cj →
      (client (storeAfter client st ((chunks writeRequests).take j)) cj).1 = none)
    (hfail : (client (storeAfter client st ((chunks writeRequests).take (k - 1))) c).1
      = some e) :
    (BatchInsert client st writeRequests).1 = some e ∧
    (BatchInsert client st writeRequests).2.2 = tagged 1 ((chunks writeRequests).take k) ∧
    submitted (BatchInsert client st writeRequests).2.2 = (chunks writeRequests).take k ∧
    (BatchInsert client st writeRequests).2.1 =
      storeAfter client st ((chunks writeRequests).take k) := by
  obtain ⟨i, rfl⟩ : ∃ i, k = i + 1 := ⟨k - 1, by omega⟩
  simp only [Nat.add_sub_cancel] at hc hfail
  have hne : writeRequests ≠ [] := by
    intro h
    subst h
    rw [chunks_nil] at hc
    simp at hc
  have hrun := submitChunks_first_failure client e (chunks writeRequests) i c st 1 hc
    (fun j cj hj hcj => hprev j cj (by omega) hcj) hfail
  rw [BatchInsert, batchLoop_eq_submitChunks client _ writeRequests st 1 rfl hne, hrun]
  exact ⟨rfl, rfl, submitted_tagged 1 _, rfl⟩

theorem BatchInsert_first_failure_witness :
    (chunks (List.replicate 60 ({ pk := "p", sk := "s", data := "d" } : WriteRequest))).length
      = 3 ∧
    (chunks (List.replicate 60 ({ pk := "p", sk := "s", data := "d" } : WriteRequest)))[2 - 1]?
      = some (List.replicate 25 { pk := "p", sk := "s", data := "d" }) ∧
    (failSecondCall (storeAfter failSecondCall 0
        ((chunks (List.replicate 60 ({ pk := "p", sk := "s", data := "d" } : WriteRequest))).take
          (2 - 1)))
      (List.replicate 25 { pk := "p", sk := "s", data := "d" })).1 = some "boom" ∧
    (BatchInsert failSecondCall 0
      (List.replicate 60 { pk := "p", sk := "s", data := "d" })).1 = some "boom" ∧
    (BatchInsert failSecondCall 0
      (List.replicate 60 { pk := "p", sk := "s", data := "d" })).2.2 =
      tagged 1 ((chunks
        (List.replicate 60 ({ pk := "p", sk := "s", data := "d" } : WriteRequest))).take 2) :=
  ⟨by decide, by decide, by decide,
    (BatchInsert_first_failure failSecondCall 0
      (List.replicate 60 { pk := "p", sk := "s", data := "d" }) 2
      (List.replicate 25 { pk := "p", sk := "s", data := "d" }) "boom" (by decide) (by decide)
      (fun j cj hj _ => by
        have hj0 : j = 0 := by omega
        subst hj0
        rfl)
      (by decide)).1,
    (BatchInsert_first_failure failSecondCall 0
      (List.replicate 60 { pk := "p", sk := "s", data := "d" }) 2
      (List.replicate 25 { pk := "p", sk := "s", data := "d" }) "boom" (by decide) (by decide)
      (fun j cj hj _ => by
        have hj0 : j = 0 := by omega
        subst hj0
        rfl)
      (by decide)).2.1⟩

/-! ### `cleanUpData` followed by `buildAdjacencyList` -/

theorem hasRequiredFields_cleanUpItem (pk sk : String) (skMandatory : Bool)
    (gs1Sks : List String) (m : DynamoInsertItem)
    (h : hasRequiredFields pk sk skMandatory gs1Sks m) :
    hasRequiredFields pk sk skMandatory gs1Sks (cleanUpItem m) := by
  obtain ⟨h1, h2, h3⟩ := h
  refine ⟨?_, ?_, ?_⟩
  · rw [cleanUpItem_get?]; simpa using h1
  · intro e; rw [cleanUpItem_get?]; simpa using h2 e
  · intro f hf; rw [cleanUpItem_get?]; simpa using h3 f hf

theorem encodedRecord_pk_cleanUpItem (pk sk : String) (skMandatory : Bool)
    (gs1Sks : List String) (m : DynamoInsertItem)
    (h : hasRequiredFields pk sk skMandatory gs1Sks m) :
    some (encodedRecord pk sk skMandatory gs1Sks (cleanUpItem m)).pk =
      (m.get? pk).map (compositeValue pk) := by
  obtain ⟨v, hv⟩ := Option.isSome_iff_exists.1 h.1
  simp [encodedRecord, cleanUpItem_get?, hv]

theorem compositeValue_customerID (v : String) :
    compositeValue "customerID" v = "customer#" ++ v := by
  have h1 : "ID".data <:+ "customerID".data := by decide
  have h2 : String.mk "customerID".data.dropLast.dropLast ++ "#" = "customer#" := by decide
  rw [compositeValue, if_pos h1, h2]

theorem compositeValue_employeeID (v : String) :
    compositeValue "employeeID" v = "employee#" ++ v := by
  have h1 : "ID".data <:+ "employeeID".data := by decide
  have h2 : String.mk "employeeID".data.dropLast.dropLast ++ "#" = "employee#" := by decide
  rw [compositeValue, if_pos h1, h2]

theorem compositeValue_orderID (v : String) :
    compositeValue "orderID" v = "order#" ++ v := by
  have h1 : "ID".data <:+ "orderID".data := by decide
  have h2 : String.mk "orderID".data.dropLast.dropLast ++ "#" = "order#" := by decide
  rw [compositeValue, if_pos h1, h2]

theorem cleanUpData_three (heap : Heap) (customers employees orders : List MapRef)
    (hnd : (customers ++ employees ++ orders).Nodup) (a : MapRef)
    (ha : a ∈ customers ++ employees ++ orders) :
    cleanUpData (cleanUpData (cleanUpData heap customers) employees) orders a =
      cleanUpItem (heap a) := by
  rw [List.append_assoc] at hnd ha
  obtain ⟨hc, heo, hdis⟩ := List.nodup_append.1 hnd
  obtain ⟨he, ho, hdis'⟩ := List.nodup_append.1 heo
  rw [cleanUpData_apply_nodup _ orders ho, cleanUpData_apply_nodup _ employees he,
    cleanUpData_apply_nodup _ customers hc]
  by_cases h1 : a ∈ customers
  · have h2 : a ∉ employees := fun h => hdis h1 (List.mem_append_left _ h)
    have h3 : a ∉ orders := fun h => hdis h1 (List.mem_append_right _ h)
    simp [h1, h2, h3]
  · by_cases h2 : a ∈ employees
    · have h3 : a ∉ orders := fun h => hdis' h2 h
      simp [h1, h2, h3]
    · have h3 : a ∈ orders := by
        rcases List.mem_append.1 ha with h | h
        · exact absurd h h1
        · rcases List.mem_append.1 h with h | h
          · exact absurd h h2
          · exact h
      simp [h1, h2, h3]

/-- C8, counterexample. With a customers slice that holds the same row object
twice and no employees or orders, `cleanUpData` on each slice followed by
`buildAdjacencyList` succeeds, but the partition keys are
`customer#customer#ALFKI`, not `customer#` followed by the row's original
`customerID` value `ALFKI`. -/
theorem mainAdjacencyList_repeated_object :
    hasRequiredFields "customerID" "contactName" true ["country", "region", "city", "address"]
      (GoMap.ofList [("customerID", "ALFKI"), ("contactName", "Maria"), ("country", "DE"),
        ("region", "W"), ("city", "Berlin"), ("address", "Obere Str. 57")]) ∧
    ∃ list, mainAdjacencyList
        (fun _ => GoMap.ofList [("customerID", "ALFKI"), ("contactName", "Maria"),
          ("country", "DE"), ("region", "W"), ("city", "Berlin"), ("address", "Obere Str. 57")])
        [0, 0] [] [] = .ok list ∧
      list.map (fun r => r.pk) = ["customer#customer#ALFKI", "customer#customer#ALFKI"] ∧
      list.map (fun r => r.pk) ≠ ["customer#" ++ "ALFKI", "customer#" ++ "ALFKI"] :=
  ⟨by decide, _, rfl, by decide, by decide⟩

/-- C8, amended. When the customers, employees and orders slices refer to
pairwise distinct map objects (no object twice in a slice or in two slices),
every customers row carries `customerID`, `contactName`, `country`, `region`,
`city` and `address`, every employees row carries `employeeID`, `reportsTo`
and `hireDate`, and every orders row carries `orderID` and `orderDate`, then
`cleanUpData` on each slice followed by `buildAdjacencyList` succeeds with one
record per row, the customers' first, then the employees', then the orders',
each group in row order; the partition key of a record is `customer#`,
`employee#` or `order#` followed by the row's original value of `customerID`,
`employeeID` or `orderID`. -/
theorem mainAdjacencyList_distinct_objects (heap : Heap)
    (customers employees orders : List MapRef)
    (hnd : (customers ++ employees ++ orders).Nodup)
    (hc : ∀ a ∈ customers, hasRequiredFields "customerID" "contactName" true
      ["country", "region", "city", "address"] (heap a))
    (he : ∀ a ∈ employees, hasRequiredFields "employeeID" "reportsTo" true ["hireDate"]
      (heap a))
    (ho : ∀ a ∈ orders, hasRequiredFields "orderID" "ORDER" false ["orderDate"] (heap a)) :
    ∃ list, mainAdjacencyList heap customers employees orders = .ok list ∧
      list.length = customers.length + employees.length + orders.length ∧
      list.map (fun r => some r.pk) =
        customers.map (fun a => ((heap a).get? "customerID").map (fun v => "customer#" ++ v)) ++
        employees.map (fun a => ((heap a).get? "employeeID").map (fun v => "employee#" ++ v)) ++
        orders.map (fun a => ((heap a).get? "orderID").map (fun v => "order#" ++ v)) := by
  have hfin := cleanUpData_three heap customers employees orders hnd
  have mc : customers.map
      (cleanUpData (cleanUpData (cleanUpData heap customers) employees) orders) =
      customers.map (fun a => cleanUpItem (heap a)) :=
    List.map_congr_left (fun a ha =>
      hfin a (List.mem_append_left _ (List.mem_append_left _ ha)))
  have me : employees.map
      (cleanUpData (cleanUpData (cleanUpData heap customers) employees) orders) =
      employees.map (fun a => cleanUpItem (heap a)) :=
    List.map_congr_left (fun a ha =>
      hfin a (List.mem_append_left _ (List.mem_append_right _ ha)))
  have mo : orders.map
      (cleanUpData (cleanUpData (cleanUpData heap customers) employees) orders) =
      orders.map (fun a => cleanUpItem (heap a)) :=
    List.map_congr_left (fun a ha => hfin a (List.mem_append_right _ ha))
  have e1 := getItemsToInsert_valid (customers.map (fun a => cleanUpItem (heap a)))
    "customerID" "contactName" true ["country", "region", "city", "address"]
    (by
      intro m hm
      obtain ⟨a, ha, rfl⟩ := List.mem_map.1 hm
      exact hasRequiredFields_cleanUpItem _ _ _ _ _ (hc a ha))
  have e2 := getItemsToInsert_valid (employees.map (fun a => cleanUpItem (heap a)))
    "employeeID" "reportsTo" true ["hireDate"]
    (by
      intro m hm
      obtain ⟨a, ha, rfl⟩ := List.mem_map.1 hm
      exact hasRequiredFields_cleanUpItem _ _ _ _ _ (he a ha))
  have e3 := getItemsToInsert_valid (orders.map (fun a => cleanUpItem (heap a)))
    "orderID" "ORDER" false ["orderDate"]
    (by
      intro m hm
      obtain ⟨a, ha, rfl⟩ := List.mem_map.1 hm
      exact hasRequiredFields_cleanUpItem _ _ _ _ _ (ho a ha))
  have hcv : compositeValue "customerID" = fun v => "customer#" ++ v :=
    funext compositeValue_customerID
  have hev : compositeValue "employeeID" = fun v => "employee#" ++ v :=
    funext compositeValue_employeeID
  have hov : compositeValue "orderID" = fun v => "order#" ++ v :=
    funext compositeValue_orderID
  refine ⟨_, by simp only [mainAdjacencyList]; rw [mc, me, mo, buildAdjacencyList, e1, e2, e3],
    ?_, ?_⟩
  · simp [Nat.add_assoc]
  · rw [List.nil_append, List.map_append, List.map_append]
    simp only [List.map_map]
    congr 1
    · congr 1
      · apply List.map_congr_left
        intro a ha
        simp only [Function.comp]
        rw [encodedRecord_pk_cleanUpItem _ _ _ _ _ (hc a ha), hcv]
      · apply List.map_congr_left
        intro a ha
        simp only [Function.comp]
        rw [encodedRecord_pk_cleanUpItem _ _ _ _ _ (he a ha), hev]
    · apply List.map_congr_left
      intro a ha
      simp only [Function.comp]
      rw [encodedRecord_pk_cleanUpItem _ _ _ _ _ (ho a ha), hov]

theorem mainAdjacencyList_distinct_objects_witness :
    ([0] ++ [1] ++ [2]).Nodup ∧
    ∃ list, mainAdjacencyList
        (fun a =>
          if a = 0 then GoMap.ofList [("customerID", "ALFKI"), ("contactName", "Maria"),
            ("country", "DE"), ("region", "W"), ("city", "Berlin"), ("address", "Obere Str. 57")]
          else if a = 1 then
            GoMap.ofList [("employeeID", "2"), ("reportsTo", ""), ("hireDate", "1992")]
          else GoMap.ofList [("orderID", "10248"), ("customerID", "ALFKI"),
            ("orderDate", "1996")])
        [0] [1] [2] = .ok list ∧
      list.length = 1 + 1 + 1 ∧
      list.map (fun r => some r.pk) =
        [some "customer#ALFKI"] ++ [some "employee#2"] ++ [some "order#10248"] :=
  ⟨by decide,
    mainAdjacencyList_distinct_objects
      (fun a =>
        if a = 0 then GoMap.ofList [("customerID", "ALFKI"), ("contactName", "Maria"),
          ("country", "DE"), ("region", "W"), ("city", "Berlin"), ("address", "Obere Str. 57")]
        else if a = 1 then
          GoMap.ofList [("employeeID", "2"), ("reportsTo", ""), ("hireDate", "1992")]
        else GoMap.ofList [("orderID", "10248"), ("customerID", "ALFKI"),
          ("orderDate", "1996")])
      [0] [1] [2] (by decide) (by decide) (by decide) (by decide)⟩

/-! ### `FetchCustomer`, `FetchEmployee`, `FetchOrder` -/

theorem fetchRow_some (row : List String) :
    ∀ (names : List String) (attributeIndex : Nat) (newRow : DynamoInsertItem),
      attributeIndex + names.length ≤ row.length →
      ∃ m, fetchRow row attributeIndex names newRow = some m := by
  intro names
  induction names with
  | nil => intro idx acc _; exact ⟨acc, rfl⟩
  | cons name rest ih =>
    intro idx acc hlen
    simp only [List.length_cons] at hlen
    have hidx : idx < row.length := by omega
    obtain ⟨m, hm⟩ := ih (idx + 1) (acc.set name row[idx]) (by omega)
    exact ⟨m, by simp only [fetchRow, List.getElem?_eq_getElem hidx, hm]⟩

theorem fetchRow_get? (row : List String) :
    ∀ (names : List String) (attributeIndex : Nat) (newRow m : DynamoInsertItem),
      fetchRow row attributeIndex names newRow = some m →
      (∀ k, k ∉ names → m.get? k = newRow.get? k) ∧
      (∀ j name, names[j]? = some name → name ∉ names.drop (j + 1) →
        m.get? name = row[attributeIndex + j]?) := by
  intro names
  induction names with
  | nil =>
    intro idx acc m h
    simp only [fetchRow, Option.some.injEq] at h
    subst h
    exact ⟨fun _ _ => rfl, fun j name hj => by simp at hj⟩
  | cons n rest ih =>
    intro idx acc m h
    cases hcell : row[idx]? with
    | none => simp [fetchRow, hcell] at h
    | some cell =>
      simp only [fetchRow, hcell] at h
      obtain ⟨ha, hb⟩ := ih (idx + 1) (acc.set n cell) m h
      constructor
      · intro k hk
        simp only [List.mem_cons, not_or] at hk
        have hne : ¬ n = k := fun e => hk.1 e.symm
        rw [ha k hk.2, GoMap.get?_set, if_neg hne]
      · intro j name hj hlast
        cases j with
        | zero =>
          simp only [List.getElem?_cons_zero, Option.some.injEq] at hj
          subst hj
          have hnot : n ∉ rest := by simpa using hlast
          rw [ha n hnot, GoMap.get?_set, if_pos rfl, Nat.add_zero, hcell]
        | succ j =>
          have hj' : rest[j]? = some name := by simpa using hj
          have hlast' : name ∉ rest.drop (j + 1) := by simpa using hlast
          rw [hb j name hj' hlast']
          congr 1
          omega

theorem fetchRows_spec (header : List String) :
    ∀ (rows : List (List String)), (∀ row ∈ rows, row.length = header.length) →
      ∃ items, fetchRows header rows = some items ∧ items.length = rows.length ∧
        ∀ (i : Nat) (row : List String) (item : DynamoInsertItem),
          rows[i]? = some row → items[i]? = some item →
          (∀ k, k ∉ header → item.get? k = none) ∧
          (∀ j name, header[j]? = some name → name ∉ header.drop (j + 1) →
            item.get? name = row[j]?) := by
  intro rows
  induction rows with
  | nil => intro _; exact ⟨[], rfl, rfl, fun i row item h => by simp at h⟩
  | cons r rest ih =>
    intro hlen
    obtain ⟨items, hitems, hl, hspec⟩ := ih (fun x hx => hlen x (List.mem_cons_of_mem _ hx))
    have hr : 0 + header.length ≤ r.length := by
      rw [hlen r (List.mem_cons_self _ _)]; omega
    obtain ⟨m, hm⟩ := fetchRow_some r header 0 GoMap.empty hr
    refine ⟨m :: items, by simp only [fetchRows, hm, hitems], by simp [hl], ?_⟩
    intro i row item hrow hitem
    cases i with
    | zero =>
      simp only [List.getElem?_cons_zero, Option.some.injEq] at hrow hitem
      subst hrow; subst hitem
      obtain ⟨ha, hb⟩ := fetchRow_get? r header 0 GoMap.empty m hm
      refine ⟨fun k hk => by rw [ha k hk]; rfl, ?_⟩
      intro j name hj hlast
      rw [hb j name hj hlast, Nat.zero_add]
    | succ i =>
      exact hspec i row item (by simpa using hrow) (by simpa using hitem)

/-- C10, counterexample. With the header `[a, a]` and the data row `[1, 2]`
`FetchCustomer` returns one mapping and it maps `a`, the name of column 0, to
`2`, not to the row's cell `1` in column 0. -/
theorem FetchCustomer_repeated_header_name :
    ∃ item, FetchCustomer (Except.ok [["a", "a"], ["1", "2"]] : Except String _) =
        some (.ok [item]) ∧
      ["a", "a"][0]? = some "a" ∧ ["1", "2"][0]? = some "1" ∧
      item.get? "a" = some "2" ∧ item.get? "a" ≠ some "1" :=
  ⟨GoMap.ofList [("a", "2")], rfl, rfl, rfl, by decide, by decide⟩

/-- C10, amended. For a successfully read table whose row 0 is the header and
whose data rows all have the header's field count, `FetchCustomer`,
`FetchEmployee` and `FetchOrder` all return, without error, the same sequence
with exactly one mapping per data row in row order; the mapping of a data row
has no field outside the header's names and, for every column `j` whose name
does not occur again in a later column, maps the header's `j`-th name to the
row's `j`-th cell.  With no data rows the sequence is empty. -/
theorem Fetch_rows {ε : Type} (header : List String) (rows : List (List String))
    (hlen : ∀ row ∈ rows, row.length = header.length) :
    ∃ items,
      FetchCustomer (Except.ok (header :: rows) : Except ε _) = some (.ok items) ∧
      FetchEmployee (Except.ok (header :: rows) : Except ε _) = some (.ok items) ∧
      FetchOrder (Except.ok (header :: rows) : Except ε _) = some (.ok items) ∧
      items.length = rows.length ∧
      ∀ (i : Nat) (row : List String) (item : DynamoInsertItem),
        rows[i]? = some row → items[i]? = some item →
        (∀ k, k ∉ header → item.get? k = none) ∧
        (∀ j name, header[j]? = some name → name ∉ header.drop (j + 1) →
          item.get? name = row[j]?) := by
  obtain ⟨items, hitems, hl, hspec⟩ := fetchRows_spec header rows hlen
  exact ⟨items, by simp only [FetchCustomer, hitems], by simp only [FetchEmployee, hitems],
    by simp only [FetchOrder, hitems], hl, hspec⟩

theorem Fetch_rows_witness :
    (∀ row ∈ [["5", "Bob"]], row.length = ["id", "name"].length) ∧
    ∃ items,
      FetchCustomer (Except.ok (["id", "name"] :: [["5", "Bob"]]) : Except String _)
        = some (.ok items) ∧
      FetchEmployee (Except.ok (["id", "name"] :: [["5", "Bob"]]) : Except String _)
        = some (.ok items) ∧
      FetchOrder (Except.ok (["id", "name"] :: [["5", "Bob"]]) : Except String _)
        = some (.ok items) ∧
      items.length = [["5", "Bob"]].length ∧
      ∀ (i : Nat) (row : List String) (item : DynamoInsertItem),
        [["5", "Bob"]][i]? = some row → items[i]? = some item →
        (∀ k, k ∉ ["id", "name"] → item.get? k = none) ∧
        (∀ j name, ["id", "name"][j]? = some name → name ∉ ["id", "name"].drop (j + 1) →
          item.get? name = row[j]?) :=
  ⟨by decide, Fetch_rows ["id", "name"] [["5", "Bob"]] (by decide)⟩

theorem Fetch_examples :
    (FetchCustomer (Except.ok [["id", "name"], ["5", "Bob"]] : Except String _)).map
        (fun r => r.map (fun items => items.map GoMap.entries)) =
      some (.ok [[("id", "5"), ("name", "Bob")]]) ∧
    (FetchCustomer (Except.ok [["id", "name"]] : Except String _)).map
        (fun r => r.map (fun items => items.map GoMap.entries)) = some (.ok []) :=
  ⟨rfl, rfl⟩

end SingleTableDesign
